import Mathlib

/-!
Verification development for the perfect-freehand stroke pipeline.

The repository's core consists of three functions:
* `getStrokePoints` (resampler) — turns raw input samples into annotated
  stroke points;
* `getStrokeRadius` — the pressure-to-radius mapping;
* `getStrokeOutlinePoints` (outline builder) — turns stroke points into the
  closed outline polygon.

Numbers are modelled as real numbers (exact arithmetic semantics of the
JavaScript source).  The vector-math module `vec` is not part of the
available sources; its operations are modelled from the specification's
section 4.1.  JavaScript array indexing that can fail (reading `rightPts[0]`
or `leftPts[0]` of a possibly-empty array inside the cap construction) is
modelled with `Option`: a `none` result corresponds to a thrown exception.
-/

namespace Freehand

/-- A raw input point: x, y, and an optional pressure (the `[x, y, pressure?]`
array form of the source; an absent third entry is `none`). -/
abbrev InputPoint : Type := ℝ × ℝ × Option ℝ

/-- The 2D position of an input point (`p.slice(0, 2)` in the source). -/
def pt2 (p : InputPoint) : ℝ × ℝ := (p.1, p.2.1)

/-- Modelled from the spec: vector addition `add` of the missing vec module. -/
def add (a b : ℝ × ℝ) : ℝ × ℝ := (a.1 + b.1, a.2 + b.2)

/-- Modelled from the spec: vector subtraction `sub` of the missing vec module. -/
def sub (a b : ℝ × ℝ) : ℝ × ℝ := (a.1 - b.1, a.2 - b.2)

/-- Modelled from the spec: scalar multiplication `mul(v, scalar)` of the
missing vec module. -/
def mul (a : ℝ × ℝ) (s : ℝ) : ℝ × ℝ := (a.1 * s, a.2 * s)

/-- Modelled from the spec: negation `neg` of the missing vec module. -/
def neg (a : ℝ × ℝ) : ℝ × ℝ := (-a.1, -a.2)

/-- Modelled from the spec: perpendicular `per`, defined as `(v.y, -v.x)`. -/
def per (v : ℝ × ℝ) : ℝ × ℝ := (v.2, -v.1)

/-- Modelled from the spec: dot product `dpr` of the missing vec module. -/
def dpr (a b : ℝ × ℝ) : ℝ := a.1 * b.1 + a.2 * b.2

/-- Modelled from the spec: linear interpolation `lrp(a, b, t) = a + (b-a)*t`. -/
def lrp (a b : ℝ × ℝ) (t : ℝ) : ℝ × ℝ := add a (mul (sub b a) t)

/-- Modelled from the spec: squared distance `dist2` of the missing vec module. -/
def dist2 (a b : ℝ × ℝ) : ℝ := (a.1 - b.1) ^ 2 + (a.2 - b.2) ^ 2

/-- Modelled from the spec: Euclidean length of a vector (used by `uni` and
`dist`). -/
noncomputable def len (v : ℝ × ℝ) : ℝ := Real.sqrt (v.1 ^ 2 + v.2 ^ 2)

/-- Modelled from the spec: Euclidean distance `dist` of the missing vec
module. -/
noncomputable def dist (a b : ℝ × ℝ) : ℝ := Real.sqrt ((a.1 - b.1) ^ 2 + (a.2 - b.2) ^ 2)

/-- Modelled from the spec: normalization `uni`; a zero-length vector yields
`(0, 0)` rather than an undefined value. -/
noncomputable def uni (v : ℝ × ℝ) : ℝ × ℝ :=
  if v = (0, 0) then (0, 0) else (v.1 / len v, v.2 / len v)

/-- Modelled from the spec: projection `prj(point, direction, distance)` —
the point moved along a direction by a signed distance. -/
def prj (a u : ℝ × ℝ) (d : ℝ) : ℝ × ℝ := add a (mul u d)

/-- Modelled from the spec: `rotAround(point, pivot, angle)` — rotation of a
point about a pivot by a signed angle, standard right-hand convention. -/
noncomputable def rotAround (a c : ℝ × ℝ) (r : ℝ) : ℝ × ℝ :=
  ((a.1 - c.1) * Real.cos r - (a.2 - c.2) * Real.sin r + c.1,
   (a.1 - c.1) * Real.sin r + (a.2 - c.2) * Real.cos r + c.2)

/-- A stroke point as produced by `getStrokePoints`. -/
structure StrokePoint where
  point : ℝ × ℝ
  pressure : ℝ
  vector : ℝ × ℝ
  distance : ℝ
  runningLength : ℝ

/-- The options read by `getStrokePoints`: `streamline` (default 0.5),
`size` (default 16) and `last` (default false). -/
structure SPOptions where
  streamline : ℝ
  size : ℝ
  last : Bool

/-- The JavaScript test `p >= 0 ? p : d` applied to an optional pressure
(`undefined >= 0` is false, so an absent pressure takes the default). -/
noncomputable def pressOr (p : Option ℝ) (d : ℝ) : ℝ :=
  match p with
  | some q => if 0 ≤ q then q else d
  | none => d

/-- Build an input point from a 2D position and an optional pressure. -/
def emb (q : ℝ × ℝ) (p : Option ℝ) : InputPoint := (q.1, q.2, p)

/-- The point-list pre-processing of `getStrokePoints`: a two-point input is
replaced by the first point followed by four interpolations at t = 1/4 … 4/4
(the vec `lrp` is 2D, so the synthesized points carry no pressure); a
one-point input gets a second point offset by `(1, 1)` that keeps the
original pressure; anything else is unchanged. -/
noncomputable def synth : List InputPoint → List InputPoint
  | [a, b] =>
    a :: ((List.range 4).map fun i : ℕ => emb (lrp (pt2 a) (pt2 b) (((i : ℝ) + 1) / 4)) none)
  | [a] => [a, emb (add (pt2 a) (1, 1)) a.2.2]
  | l => l

/-- The main loop of `getStrokePoints`.  The state is the previous stroke
point, the accumulated running length, and the has-reached-minimum-length
flag; the result is the list of emitted stroke points (the seeded first
stroke point is not part of it). -/
noncomputable def spLoop (t size : ℝ) (isComplete : Bool) :
    StrokePoint → ℝ → Bool → List InputPoint → List StrokePoint
  | _, _, _, [] => []
  | prev, rl, reached, p :: rest =>
    let point := if isComplete ∧ rest.isEmpty then pt2 p else lrp prev.point (pt2 p) t
    if point = prev.point then
      spLoop t size isComplete prev rl reached rest
    else
      let d := dist point prev.point
      let rl' := rl + d
      if ¬ rest.isEmpty ∧ reached = false ∧ rl' < size then
        spLoop t size isComplete prev rl' false rest
      else
        let sp : StrokePoint :=
          ⟨point, pressOr p.2.2 0.5, uni (sub prev.point point), d, rl'⟩
        sp :: spLoop t size isComplete sp rl' (reached || !rest.isEmpty) rest

/-- The resampler `getStrokePoints`, for inputs already in the source's
canonical `number[][]` form.  (The source also accepts record inputs
`{x, y, pressure?}` and first maps them to `[x, y, pressure]`, defaulting an
absent pressure to 0.5 during that destructuring; that pre-map is not part
of this embedding.)  Counted loops of the source (`for (t = step; ...)`)
are rendered as maps over `List.range`, following the exact-real iteration
count of the accumulating loop. -/
noncomputable def getStrokePoints (points : List InputPoint) (o : SPOptions) :
    List StrokePoint :=
  match points with
  | [] => []
  | _ :: _ =>
    let t := 0.15 + (1 - o.streamline) * 0.85
    match synth points with
    | [] => []
    | q :: rest =>
      let first : StrokePoint := ⟨pt2 q, pressOr q.2.2 0.25, (1, 1), 0, 0⟩
      let tail := spLoop t o.size o.last first 0 false rest
      let v0 := match tail with
        | [] => ((0 : ℝ), (0 : ℝ))
        | s :: _ => s.vector
      ⟨first.point, first.pressure, v0, 0, 0⟩ :: tail

/-- The pressure-to-radius mapping `getStrokeRadius`. -/
def getStrokeRadius (size thinning pressure : ℝ) (easing : ℝ → ℝ) : ℝ :=
  size * easing (0.5 - thinning * (0.5 - pressure))

/-- The fixed rate-of-pressure-change constant of the outline builder. -/
noncomputable def RATE_OF_PRESSURE_CHANGE : ℝ := 0.275

/-- The slightly offset pi used by the outline builder for every rotation. -/
noncomputable def FIXED_PI : ℝ := Real.pi + 0.0001

/-- The pressure-simulation formula shared by the seed fold and the main
loop of the outline builder: accelerate the accumulated pressure toward the
rate of change determined by the segment's speed. -/
noncomputable def simPressure (size acc distance : ℝ) : ℝ :=
  min 1 (acc + (min 1 (1 - min 1 (distance / size)) - acc) *
    (min 1 (distance / size) * RATE_OF_PRESSURE_CHANGE))

/-- The options read by `getStrokeOutlinePoints`, with the source's
defaults noted: size 16, thinning 0.5, smoothing 0.5, simulatePressure true,
easing identity, caps true, tapers 0, taper easings `t*(2-t)` and
`(t-1)^3+1`, last false. -/
structure OutlineOptions where
  size : ℝ
  thinning : ℝ
  smoothing : ℝ
  simulatePressure : Bool
  easing : ℝ → ℝ
  capStart : Bool
  taperStart : ℝ
  taperStartEase : ℝ → ℝ
  capEnd : Bool
  taperEnd : ℝ
  taperEndEase : ℝ → ℝ
  last : Bool

/-- The seed for the previous-pressure accumulator: a fold over the first
ten stroke points starting from the first point's pressure. -/
noncomputable def seedPressure (o : OutlineOptions) (points : List StrokePoint)
    (init : ℝ) : ℝ :=
  (points.take 10).foldl
    (fun acc curr =>
      let pressure := if o.simulatePressure then simPressure o.size acc curr.distance
        else curr.pressure
      (acc + pressure) / 2)
    init

/-- The last element of a list, with a fallback for the empty list
(`points[points.length - 1]` of the source, always applied to a list whose
head is the fallback). -/
def lastD {α : Type} : α → List α → α
  | a, [] => a
  | _, b :: l => lastD b l

/-- The mutable state of the outline builder's main loop. -/
structure OutState where
  prevPressure : ℝ
  radius : ℝ
  firstRadius : Option ℝ
  prevVector : ℝ × ℝ
  pl : ℝ × ℝ
  pr : ℝ × ℝ
  leftPts : List (ℝ × ℝ)
  rightPts : List (ℝ × ℝ)

/-- The main loop of `getStrokeOutlinePoints`.  `leftPts` and `rightPts`
are accumulated in reverse order (newest first); the natural-number
argument is the loop index `i`.  The sharp-corner rotation loop runs
`t = 0, 1/13, …, 13/13` in exact arithmetic, hence 14 points per side. -/
noncomputable def outlineLoop (o : OutlineOptions) (totalLength minDistance : ℝ) :
    ℕ → OutState → List StrokePoint → OutState
  | _, st, [] => st
  | i, st, cur :: rest =>
    if ¬ rest.isEmpty ∧ totalLength - cur.runningLength < 3 then
      outlineLoop o totalLength minDistance (i + 1) st rest
    else
      let pr1 := if o.thinning ≠ 0 ∧ o.simulatePressure then
        simPressure o.size st.prevPressure cur.distance else cur.pressure
      let r1 := if o.thinning ≠ 0 then getStrokeRadius o.size o.thinning pr1 o.easing
        else o.size / 2
      let fr := match st.firstRadius with
        | none => some r1
        | some f => some f
      let ts := if cur.runningLength < o.taperStart then
        o.taperStartEase (cur.runningLength / o.taperStart) else 1
      let te := if totalLength - cur.runningLength < o.taperEnd then
        o.taperEndEase ((totalLength - cur.runningLength) / o.taperEnd) else 1
      let r2 := max 0.01 (r1 * min ts te)
      match rest with
      | [] =>
        let off := mul (per cur.vector) r2
        { st with
          radius := r2
          firstRadius := fr
          leftPts := sub cur.point off :: st.leftPts
          rightPts := add cur.point off :: st.rightPts }
      | next :: _ =>
        let nextDpr := dpr cur.vector next.vector
        if nextDpr < 0 then
          let off := mul (per st.prevVector) r2
          let ls := (List.range 14).map fun k : ℕ =>
            rotAround (sub cur.point off) cur.point (FIXED_PI * ((k : ℝ) / 13))
          let rs := (List.range 14).map fun k : ℕ =>
            rotAround (add cur.point off) cur.point (FIXED_PI * (-((k : ℝ) / 13)))
          outlineLoop o totalLength minDistance (i + 1)
            { st with
              radius := r2
              firstRadius := fr
              pl := rotAround (sub cur.point off) cur.point (FIXED_PI * ((13 : ℝ) / 13))
              pr := rotAround (add cur.point off) cur.point (FIXED_PI * (-((13 : ℝ) / 13)))
              leftPts := ls.reverse ++ st.leftPts
              rightPts := rs.reverse ++ st.rightPts } rest
        else
          let offset := mul (per (lrp next.vector cur.vector nextDpr)) r2
          let tl := sub cur.point offset
          let keepL := i ≤ 1 ∨ dist2 st.pl tl > minDistance
          let tr := add cur.point offset
          let keepR := i ≤ 1 ∨ dist2 st.pr tr > minDistance
          outlineLoop o totalLength minDistance (i + 1)
            { prevPressure := pr1
              radius := r2
              firstRadius := fr
              prevVector := cur.vector
              pl := if keepL then tl else st.pl
              pr := if keepR then tr else st.pr
              leftPts := if keepL then tl :: st.leftPts else st.leftPts
              rightPts := if keepR then tr :: st.rightPts else st.rightPts } rest

/-- The start-cap construction of the outline builder (`n` is the number of
stroke points).  A `none` result models the exception thrown by reading the
first element of an empty left or right point array. -/
noncomputable def startCapOf (o : OutlineOptions) (st : OutState)
    (firstPoint : ℝ × ℝ) (n : ℕ) : Option (List (ℝ × ℝ)) :=
  if o.taperStart ≠ 0 ∨ (o.taperEnd ≠ 0 ∧ n = 1) then some []
  else if o.capStart then
    match st.rightPts.reverse with
    | [] => none
    | r0 :: _ => some ((List.range 13).map fun k : ℕ =>
        rotAround r0 firstPoint (FIXED_PI * (((k : ℝ) + 1) / 13)))
  else
    match st.leftPts.reverse, st.rightPts.reverse with
    | l0 :: _, r0 :: _ =>
      let cv := sub l0 r0
      some [sub firstPoint (mul cv 0.5), sub firstPoint (mul cv 0.51),
        add firstPoint (mul cv 0.51), add firstPoint (mul cv 0.5)]
    | _, _ => none

/-- The end-cap construction of the outline builder (`n` is the number of
stroke points). -/
noncomputable def endCapOf (o : OutlineOptions) (st : OutState)
    (lastPoint direction : ℝ × ℝ) (n : ℕ) : List (ℝ × ℝ) :=
  if o.taperEnd ≠ 0 ∨ (o.taperStart ≠ 0 ∧ n = 1) then [lastPoint]
  else if o.capEnd then
    let start2 := prj lastPoint direction st.radius
    (List.range 28).map fun k : ℕ =>
      rotAround start2 lastPoint (FIXED_PI * 3 * (((k : ℝ) + 1) / 29))
  else
    [add lastPoint (mul direction st.radius),
     add lastPoint (mul direction (st.radius * 0.99)),
     sub lastPoint (mul direction (st.radius * 0.99)),
     sub lastPoint (mul direction st.radius)]

/-- The outline builder `getStrokeOutlinePoints`.  A `none` result models a
thrown exception (reading the first element of an empty left or right point
array during cap construction). -/
noncomputable def getStrokeOutlinePoints (points : List StrokePoint)
    (o : OutlineOptions) : Option (List (ℝ × ℝ)) :=
  match points with
  | [] => some []
  | p0 :: _ =>
    if o.size ≤ 0 then some []
    else
      let lastSP := lastD p0 points
      let totalLength := lastSP.runningLength
      let minDistance := (o.size * o.smoothing) ^ 2
      let st0 : OutState :=
        ⟨seedPressure o points p0.pressure,
         getStrokeRadius o.size o.thinning lastSP.pressure o.easing,
         none, p0.vector, p0.point, p0.point, [], []⟩
      let st := outlineLoop o totalLength minDistance 0 st0 points
      let firstPoint := p0.point
      let lastPoint := if 1 < points.length then lastSP.point else add p0.point (1, 1)
      if points.length = 1 then
        if (o.taperStart = 0 ∧ o.taperEnd = 0) ∨ o.last then
          let rr := match st.firstRadius with
            | some f => if f ≠ 0 then f else st.radius
            | none => st.radius
          let start1 := prj firstPoint (uni (per (sub firstPoint lastPoint))) (-rr)
          some ((List.range 13).map fun k : ℕ =>
            rotAround start1 firstPoint (FIXED_PI * 2 * (((k : ℝ) + 1) / 13)))
        else
          some (st.leftPts.reverse ++ st.rightPts)
      else
        let direction := per (neg lastSP.vector)
        (startCapOf o st firstPoint points.length).bind fun startCap =>
          some (st.leftPts.reverse ++ endCapOf o st lastPoint direction points.length ++
            st.rightPts ++ startCap)

/-- Exact chain predicate for stroke points: starting from `prev`, every
following point's `distance` is exactly the increment of `runningLength`,
and `runningLength` never decreases. -/
def chainEq (prev : StrokePoint) : List StrokePoint → Prop
  | [] => True
  | b :: l => prev.runningLength ≤ b.runningLength ∧
      b.distance = b.runningLength - prev.runningLength ∧ chainEq b l

/-- An input pressure that the source treats as unspecified: absent, or
negative (the test `p >= 0` fails). -/
def unspec : Option ℝ → Prop
  | none => True
  | some q => q < 0

/-- Two stroke points that agree on everything except possibly pressure. -/
def sameCore (a b : StrokePoint) : Prop :=
  a.point = b.point ∧ a.vector = b.vector ∧ a.distance = b.distance ∧
    a.runningLength = b.runningLength

/-- Two outline-loop states that agree on every field except the
previous-pressure accumulator (the only field a thinning-free outline never
reads). -/
def stEq (a b : OutState) : Prop :=
  a.radius = b.radius ∧ a.firstRadius = b.firstRadius ∧
    a.prevVector = b.prevVector ∧ a.pl = b.pl ∧ a.pr = b.pr ∧
    a.leftPts = b.leftPts ∧ a.rightPts = b.rightPts

/-! ## Theorems -/

theorem dist_nonneg' (a b : ℝ × ℝ) : 0 ≤ dist a b := Real.sqrt_nonneg _

/-- A freshly emitted stroke point extends an exact chain when the state's
running length agrees with the previous point's. -/
theorem chainEq_cons_of (prev : StrokePoint) (q : ℝ × ℝ) (pr : ℝ) (v : ℝ × ℝ)
    (rl : ℝ) (tail : List StrokePoint) (h : prev.runningLength = rl)
    (htail : chainEq ⟨q, pr, v, dist q prev.point, rl + dist q prev.point⟩ tail) :
    chainEq prev (⟨q, pr, v, dist q prev.point, rl + dist q prev.point⟩ :: tail) := by
  have hd : 0 ≤ dist q prev.point := dist_nonneg' _ _
  simp only [chainEq]
  refine ⟨by simp only [h]; linarith, by simp only [h]; ring, htail⟩

/-- Once the minimum-length flag is set, every emitted stroke point's
distance is exactly the increment of the running length. -/
theorem spLoop_chainEq (t size : ℝ) (c : Bool) :
    ∀ (ps : List InputPoint) (prev : StrokePoint) (rl : ℝ),
      prev.runningLength = rl → chainEq prev (spLoop t size c prev rl true ps)
  | [], _, _, _ => trivial
  | p :: rest, prev, rl, h => by
    simp only [spLoop, Bool.true_eq_false, false_and, and_false, if_false,
      Bool.true_or]
    split
    · split
      · exact spLoop_chainEq t size c rest prev rl h
      · exact chainEq_cons_of prev _ _ _ rl _ h (spLoop_chainEq t size c rest _ _ rfl)
    · split
      · exact spLoop_chainEq t size c rest prev rl h
      · exact chainEq_cons_of prev _ _ _ rl _ h (spLoop_chainEq t size c rest _ _ rfl)

/-- From the initial state (flag unset), the loop's output is either empty
or a first emitted point whose distance is at most the running-length
increment, followed by an exact chain. -/
theorem spLoop_start (t size : ℝ) (c : Bool) :
    ∀ (ps : List InputPoint) (prev : StrokePoint) (rl : ℝ),
      prev.runningLength ≤ rl →
      spLoop t size c prev rl false ps = [] ∨
      ∃ b tail, spLoop t size c prev rl false ps = b :: tail ∧
        prev.runningLength ≤ b.runningLength ∧
        b.distance ≤ b.runningLength - prev.runningLength ∧ chainEq b tail
  | [], _, _, _ => Or.inl rfl
  | p :: rest, prev, rl, h => by
    simp only [spLoop]
    split
    · rename_i hcl
      split
      · exact spLoop_start t size c rest prev rl h
      · have hd : 0 ≤ dist (pt2 p) prev.point := dist_nonneg' _ _
        split
        · exact spLoop_start t size c rest prev _ (by linarith)
        · refine Or.inr ⟨_, _, rfl, ?_, ?_, ?_⟩
          · simp only []
            linarith
          · simp only []
            linarith
          · rcases hcl with ⟨_, hre⟩
            rw [List.isEmpty_iff] at hre
            subst hre
            trivial
    · split
      · exact spLoop_start t size c rest prev rl h
      · have hd : 0 ≤ dist (lrp prev.point (pt2 p) t) prev.point := dist_nonneg' _ _
        split
        · exact spLoop_start t size c rest prev _ (by linarith)
        · refine Or.inr ⟨_, _, rfl, ?_, ?_, ?_⟩
          · simp only []
            linarith
          · simp only []
            linarith
          · cases rest with
            | nil => trivial
            | cons q qs =>
              simpa using spLoop_chainEq t size c (q :: qs) _ _ rfl

theorem chainEq_chain'_le :
    ∀ {b : StrokePoint} {l : List StrokePoint}, chainEq b l →
      List.Chain' (fun x y => x.runningLength ≤ y.runningLength) (b :: l)
  | _, [], _ => List.chain'_singleton _
  | _, _ :: _, h =>
    List.chain'_cons.mpr ⟨h.1, chainEq_chain'_le h.2.2⟩

theorem chainEq_chain'_eq :
    ∀ {b : StrokePoint} {l : List StrokePoint}, chainEq b l →
      List.Chain' (fun x y => y.distance = y.runningLength - x.runningLength) (b :: l)
  | _, [], _ => List.chain'_singleton _
  | _, _ :: _, h =>
    List.chain'_cons.mpr ⟨h.2.1, chainEq_chain'_eq h.2.2⟩

theorem synth_ne_nil (l : List InputPoint) (h : l ≠ []) : synth l ≠ [] := by
  cases l with
  | nil => exact absurd rfl h
  | cons a l' =>
    cases l' with
    | nil => simp [synth]
    | cons b l'' =>
      cases l'' with
      | nil => simp [synth]
      | cons c l''' => simp [synth]

/-- C1 (amended): for every output of `getStrokePoints`, `runningLength`
starts at 0 and is non-decreasing; for every index `i ≥ 2` the point's
`distance` equals `runningLength[i] - runningLength[i-1]`; at index 1 the
distance is at most the running-length increment (the start-of-stroke noise
gate accumulates running length over points it suppresses, so the first
emitted point can carry extra length). -/
theorem strokePoints_prefix_sum (pts : List InputPoint) (o : SPOptions) :
    (∀ a ∈ (getStrokePoints pts o).head?, a.runningLength = 0) ∧
    List.Chain' (fun a b => a.runningLength ≤ b.runningLength) (getStrokePoints pts o) ∧
    List.Chain' (fun a b => b.distance = b.runningLength - a.runningLength)
      (getStrokePoints pts o).tail ∧
    ∀ a ∈ (getStrokePoints pts o).head?, ∀ b ∈ (getStrokePoints pts o).tail.head?,
      b.distance ≤ b.runningLength - a.runningLength := by
  cases pts with
  | nil => simp [getStrokePoints]
  | cons p ps =>
    simp only [getStrokePoints]
    cases hs : synth (p :: ps) with
    | nil => exact absurd hs (synth_ne_nil _ (by simp))
    | cons q rest =>
      dsimp only
      have h := spLoop_start (0.15 + (1 - o.streamline) * 0.85) o.size o.last rest
        ⟨pt2 q, pressOr q.2.2 0.25, (1, 1), 0, 0⟩ 0 (le_refl 0)
      rcases h with he | ⟨b, t2, heq, hle, hsl, hch⟩
      · rw [he]
        simp
      · rw [heq]
        refine ⟨by simp, ?_, ?_, ?_⟩
        · exact List.chain'_cons.mpr ⟨hle, chainEq_chain'_le hch⟩
        · exact chainEq_chain'_eq hch
        · intro a ha b' hb'
          simp only [List.head?_cons, List.tail_cons, Option.mem_def,
            Option.some.injEq] at ha hb'
          subst ha
          subst hb'
          simpa using hsl

/-- Closed witness instantiating `strokePoints_prefix_sum` at a concrete
input. -/
theorem strokePoints_prefix_sum_witness :
    (∀ a ∈ (getStrokePoints [((0 : ℝ), (0 : ℝ), (none : Option ℝ)),
        ((20 : ℝ), (0 : ℝ), (none : Option ℝ))] ⟨0.5, 16, false⟩).head?,
      a.runningLength = 0) ∧
    List.Chain' (fun a b => a.runningLength ≤ b.runningLength)
      (getStrokePoints [((0 : ℝ), (0 : ℝ), (none : Option ℝ)),
        ((20 : ℝ), (0 : ℝ), (none : Option ℝ))] ⟨0.5, 16, false⟩) ∧
    List.Chain' (fun a b => b.distance = b.runningLength - a.runningLength)
      (getStrokePoints [((0 : ℝ), (0 : ℝ), (none : Option ℝ)),
        ((20 : ℝ), (0 : ℝ), (none : Option ℝ))] ⟨0.5, 16, false⟩).tail ∧
    ∀ a ∈ (getStrokePoints [((0 : ℝ), (0 : ℝ), (none : Option ℝ)),
        ((20 : ℝ), (0 : ℝ), (none : Option ℝ))] ⟨0.5, 16, false⟩).head?,
      ∀ b ∈ (getStrokePoints [((0 : ℝ), (0 : ℝ), (none : Option ℝ)),
        ((20 : ℝ), (0 : ℝ), (none : Option ℝ))] ⟨0.5, 16, false⟩).tail.head?,
        b.distance ≤ b.runningLength - a.runningLength :=
  strokePoints_prefix_sum _ _

theorem dist_axis (a b y : ℝ) : dist (a, y) (b, y) = |a - b| := by
  unfold dist
  rw [sub_self]
  norm_num [Real.sqrt_sq_eq_abs]

theorem dist_axis0 (a : ℝ) : dist (a, (0 : ℝ)) 0 = |a| := by
  have h : (0 : ℝ × ℝ) = ((0 : ℝ), (0 : ℝ)) := rfl
  rw [h, dist_axis, sub_zero]

theorem sqrt_400 : Real.sqrt 400 = 20 := by
  rw [show (400 : ℝ) = 20 ^ 2 by norm_num, Real.sqrt_sq (by norm_num : (0 : ℝ) ≤ 20)]

/-- Full evaluation of the resampler on the spec's concrete scenario
`[[0,0],[10,0],[20,0]]` with streamline 0.5, size 16, last true: the
interpolated point `(5.75, 0)` is suppressed by the start-of-stroke noise
gate (its distance 5.75 is below size 16) while its distance still
accumulates, and the final raw point `(20, 0)` is emitted verbatim. -/
theorem gsp_run :
    getStrokePoints [((0 : ℝ), (0 : ℝ), (none : Option ℝ)),
        ((10 : ℝ), (0 : ℝ), (none : Option ℝ)),
        ((20 : ℝ), (0 : ℝ), (none : Option ℝ))] ⟨0.5, 16, true⟩ =
      [⟨(0, 0), 0.25, (-1, 0), 0, 0⟩, ⟨(20, 0), 0.5, (-1, 0), 20, 25.75⟩] := by
  simp only [getStrokePoints, synth, spLoop, List.isEmpty_cons, List.isEmpty_nil,
    pt2, pressOr, lrp, add, sub, mul]
  norm_num [dist_axis, dist_axis0, Prod.ext_iff, uni, len, abs_of_nonneg, sqrt_400,
    StrokePoint.mk.injEq]

/-- C1 (counterexample): on `[[0,0],[10,0],[20,0]]` with streamline 0.5,
size 16, last true, the second stroke point has distance 20 but
running-length increment 25.75, refuting the claim that every distance
equals the running-length increment. -/
theorem strokePoints_prefix_sum_cex :
    (getStrokePoints [((0 : ℝ), (0 : ℝ), (none : Option ℝ)),
        ((10 : ℝ), (0 : ℝ), (none : Option ℝ)),
        ((20 : ℝ), (0 : ℝ), (none : Option ℝ))] ⟨0.5, 16, true⟩).map
      (fun s => (s.distance, s.runningLength)) = [(0, 0), (20, 25.75)] ∧
    ¬ ((20 : ℝ) = 25.75 - 0) := by
  rw [gsp_run]
  norm_num

/-- C3: `resample([[0,0],[10,0],[20,0]], {streamline:0.5, size:16,
last:true})` ends with a stroke point whose position is exactly `(20, 0)`:
with `last` set, the final raw input position is used verbatim. -/
theorem strokePoints_last_verbatim :
    ((getStrokePoints [((0 : ℝ), (0 : ℝ), (none : Option ℝ)),
        ((10 : ℝ), (0 : ℝ), (none : Option ℝ)),
        ((20 : ℝ), (0 : ℝ), (none : Option ℝ))] ⟨0.5, 16, true⟩).getLast?).map
      StrokePoint.point = some ((20 : ℝ), (0 : ℝ)) := by
  rw [gsp_run]
  rfl

/-- C5: `getStrokeRadius size thinning pressure easing` equals
`size * easing (0.5 - thinning * (0.5 - pressure))`; at `thinning = 0` the
result is `size * easing 0.5` regardless of the pressure; and the function
applies no clamping of its own — a negative result is possible. -/
theorem getStrokeRadius_formula :
    (∀ size thinning pressure : ℝ, ∀ easing : ℝ → ℝ,
      getStrokeRadius size thinning pressure easing
        = size * easing (0.5 - thinning * (0.5 - pressure))) ∧
    (∀ size pressure : ℝ, ∀ easing : ℝ → ℝ,
      getStrokeRadius size 0 pressure easing = size * easing 0.5) ∧
    getStrokeRadius 1 3 0 (fun t => t) < 0 := by
  refine ⟨fun _ _ _ _ => rfl, fun s p e => ?_, ?_⟩
  · unfold getStrokeRadius
    norm_num
  · unfold getStrokeRadius
    norm_num

/-- C8: the normalization `uni` maps the zero vector to `(0, 0)` instead of
producing an undefined value, and every nonzero vector is mapped to a
well-defined unit vector. -/
theorem uni_zero_and_unit :
    uni (0, 0) = (0, 0) ∧ ∀ v : ℝ × ℝ, v ≠ (0, 0) → len (uni v) = 1 := by
  constructor
  · simp [uni]
  · intro v hv
    have hne : v.1 ≠ 0 ∨ v.2 ≠ 0 := by
      rcases v with ⟨x, y⟩
      by_contra h
      push_neg at h
      exact hv (Prod.ext h.1 h.2)
    have hpos : 0 < v.1 ^ 2 + v.2 ^ 2 := by
      rcases hne with h | h
      · have := pow_two_pos_of_ne_zero h
        nlinarith [sq_nonneg v.2]
      · have := pow_two_pos_of_ne_zero h
        nlinarith [sq_nonneg v.1]
    have hl : 0 < len v := Real.sqrt_pos.mpr hpos
    have huni : uni v = (v.1 / len v, v.2 / len v) := by rw [uni, if_neg hv]
    rw [huni, len]
    have h1 : (v.1 / len v) ^ 2 + (v.2 / len v) ^ 2
        = (v.1 ^ 2 + v.2 ^ 2) / len v ^ 2 := by ring
    have h2 : len v ^ 2 = v.1 ^ 2 + v.2 ^ 2 := Real.sq_sqrt hpos.le
    rw [h1, h2, div_self hpos.ne', Real.sqrt_one]

/-- Closed witness for the unit-length part of `uni_zero_and_unit` at the
concrete vector `(3, 4)`. -/
theorem uni_zero_and_unit_witness :
    uni (0, 0) = (0, 0) ∧
      (((3 : ℝ), (4 : ℝ)) ≠ ((0 : ℝ), (0 : ℝ)) ∧ len (uni (3, 4)) = 1) :=
  ⟨uni_zero_and_unit.1, by norm_num, uni_zero_and_unit.2 (3, 4) (by norm_num)⟩

/-- The outline loop always leaves both point sequences nonempty when it
processes at least one stroke point (the final stroke point unconditionally
pushes one point to each side). -/
theorem outlineLoop_ne_nil (o : OutlineOptions) (tL mD : ℝ) :
    ∀ (ps : List StrokePoint) (i : ℕ) (st : OutState), ps ≠ [] →
      (outlineLoop o tL mD i st ps).leftPts ≠ [] ∧
      (outlineLoop o tL mD i st ps).rightPts ≠ []
  | [], _, _, h => absurd rfl h
  | cur :: rest, i, st, _ => by
    cases rest with
    | nil =>
      rw [outlineLoop]
      simp only [List.isEmpty_nil]
      constructor <;> simp
    | cons nxt rest' =>
      rw [outlineLoop]
      simp only [List.isEmpty_cons]
      split
      · exact outlineLoop_ne_nil o tL mD (nxt :: rest') (i + 1) st (by simp)
      · split
        · exact outlineLoop_ne_nil o tL mD (nxt :: rest') (i + 1) _ (by simp)
        · exact outlineLoop_ne_nil o tL mD (nxt :: rest') (i + 1) _ (by simp)

/-- The start cap never fails when both point sequences are nonempty. -/
theorem startCapOf_isSome (o : OutlineOptions) (st : OutState) (fp : ℝ × ℝ)
    (n : ℕ) (hl : st.leftPts ≠ []) (hr : st.rightPts ≠ []) :
    (startCapOf o st fp n).isSome := by
  rw [startCapOf]
  split
  · rfl
  · split
    · cases hrv : st.rightPts.reverse with
      | nil => exact absurd (List.reverse_eq_nil_iff.mp hrv) hr
      | cons r0 rs => rfl
    · cases hlv : st.leftPts.reverse with
      | nil => exact absurd (List.reverse_eq_nil_iff.mp hlv) hl
      | cons l0 ls =>
        cases hrv : st.rightPts.reverse with
        | nil => exact absurd (List.reverse_eq_nil_iff.mp hrv) hr
        | cons r0 rs => rfl

theorem bind_some_isSome {α β : Type} (x : Option α) (g : α → β)
    (hx : x.isSome) : (x.bind fun a => some (g a)).isSome := by
  cases x with
  | none => exact absurd hx (by simp)
  | some a => rfl

/-- The outline builder never fails: the only indexing that could throw
(the first left or right point during cap construction) is always executed
on a nonempty sequence. -/
theorem gsop_isSome (ps : List StrokePoint) (o : OutlineOptions) :
    (getStrokeOutlinePoints ps o).isSome := by
  cases ps with
  | nil => rfl
  | cons p0 rest =>
    simp only [getStrokeOutlinePoints]
    split
    · rfl
    · split
      · split
        · rfl
        · rfl
      · exact bind_some_isSome _ _
          (startCapOf_isSome _ _ _ _
            (outlineLoop_ne_nil o _ _ _ 0 _ (by simp)).1
            (outlineLoop_ne_nil o _ _ _ 0 _ (by simp)).2)

/-- C6: degenerate inputs yield empty results rather than errors, and
neither transform can fail on any well-typed input: the resampler of an
empty sequence is empty, the outline of an empty sequence is empty, the
outline under non-positive size is empty, and the outline builder always
returns a value (never the exception marker `none`). -/
theorem degenerate_inputs_safe :
    (∀ o : SPOptions, getStrokePoints [] o = []) ∧
    (∀ o : OutlineOptions, getStrokeOutlinePoints [] o = some []) ∧
    (∀ (pts : List StrokePoint) (o : OutlineOptions), o.size ≤ 0 →
      getStrokeOutlinePoints pts o = some []) ∧
    (∀ (pts : List StrokePoint) (o : OutlineOptions),
      (getStrokeOutlinePoints pts o).isSome) := by
  refine ⟨fun _ => rfl, fun _ => rfl, ?_, gsop_isSome⟩
  intro pts o h
  cases pts with
  | nil => rfl
  | cons p0 rest =>
    simp only [getStrokeOutlinePoints]
    rw [if_pos h]

/-- Closed witness for `degenerate_inputs_safe`, discharging the
non-positive-size hypothesis at size 0. -/
theorem degenerate_inputs_safe_witness :
    getStrokePoints [] ⟨0.5, 16, false⟩ = [] ∧
    getStrokeOutlinePoints []
      ⟨16, 0, 0, false, fun t => t, true, 0, fun t => t, true, 0, fun t => t, false⟩
      = some [] ∧
    ((0 : ℝ) ≤ 0 ∧
      getStrokeOutlinePoints [⟨(0, 0), 0, (0, 0), 0, 0⟩]
        ⟨0, 0, 0, false, fun t => t, true, 0, fun t => t, true, 0, fun t => t, false⟩
        = some []) ∧
    (getStrokeOutlinePoints [⟨(0, 0), 0, (0, 0), 0, 0⟩]
      ⟨16, 0, 0, false, fun t => t, true, 0, fun t => t, true, 0, fun t => t, false⟩).isSome :=
  ⟨degenerate_inputs_safe.1 _, degenerate_inputs_safe.2.1 _,
    ⟨le_refl 0, degenerate_inputs_safe.2.2.1 _ _ (le_refl 0)⟩,
    degenerate_inputs_safe.2.2.2 _ _⟩

/-- On a single stroke point the outline loop pushes exactly one point to
each side, offset by the perpendicular of the point's vector scaled by the
(positive) tapered radius. -/
theorem outlineLoop_singleton_sides (o : OutlineOptions) (tL mD : ℝ) (i : ℕ)
    (st : OutState) (cur : StrokePoint) :
    ∃ r : ℝ, 0 < r ∧
      (outlineLoop o tL mD i st [cur]).leftPts =
        sub cur.point (mul (per cur.vector) r) :: st.leftPts ∧
      (outlineLoop o tL mD i st [cur]).rightPts =
        add cur.point (mul (per cur.vector) r) :: st.rightPts := by
  rw [outlineLoop]
  simp only [List.isEmpty_nil, eq_self_iff_true, not_true, false_and, if_false]
  exact ⟨_, lt_of_lt_of_le (by norm_num) (le_max_left _ _), rfl, rfl⟩

/-- The single-stroke-point fall-through of the outline builder: when the
dot-circle condition fails, the outline is the bare left point followed by
the bare right point. -/
theorem gsop_singleton_fallthrough (sp : StrokePoint) (o : OutlineOptions)
    (ht : ¬ ((o.taperStart = 0 ∧ o.taperEnd = 0) ∨ o.last = true))
    (hsize : 0 < o.size) :
    ∃ r : ℝ, 0 < r ∧
      getStrokeOutlinePoints [sp] o = some
        [sub sp.point (mul (per sp.vector) r), add sp.point (mul (per sp.vector) r)] := by
  obtain ⟨r, hr, hL, hR⟩ := outlineLoop_singleton_sides o
    (lastD sp [sp]).runningLength ((o.size * o.smoothing) ^ 2) 0
    ⟨seedPressure o [sp] sp.pressure,
     getStrokeRadius o.size o.thinning (lastD sp [sp]).pressure o.easing,
     none, sp.vector, sp.point, sp.point, [], []⟩ sp
  refine ⟨r, hr, ?_⟩
  simp only [getStrokeOutlinePoints]
  rw [if_neg (not_le.mpr hsize), if_pos (by simp : ([sp] : List StrokePoint).length = 1),
    if_neg ht, hL, hR]
  simp

/-- C9: for a single stroke point with a nonzero taper configured on at
least one end and the stroke not complete, the outline is exactly the two
points `point - per(vector)*radius` and `point + per(vector)*radius` (no
dot circle and no caps). -/
theorem single_point_tapered_two_points (sp : StrokePoint) (o : OutlineOptions)
    (ht : o.taperStart ≠ 0 ∨ o.taperEnd ≠ 0) (hlast : o.last = false)
    (hsize : 0 < o.size) :
    ∃ r : ℝ, 0 < r ∧
      getStrokeOutlinePoints [sp] o = some
        [sub sp.point (mul (per sp.vector) r), add sp.point (mul (per sp.vector) r)] := by
  refine gsop_singleton_fallthrough sp o ?_ hsize
  intro hcon
  rcases hcon with ⟨h1, h2⟩ | hl
  · rcases ht with h | h
    · exact h h1
    · exact h h2
  · rw [hlast] at hl
    cases hl

/-- Closed witness for `single_point_tapered_two_points` at a concrete
stroke point and configuration with start taper 1. -/
theorem single_point_tapered_two_points_witness :
    ∃ r : ℝ, 0 < r ∧
      getStrokeOutlinePoints [⟨(0, 0), 0.5, (0, 1), 0, 0⟩]
        ⟨16, 0.5, 0.5, true, fun t => t, true, 1, fun t => t, true, 0, fun t => t, false⟩
        = some [sub (0, 0) (mul (per (0, 1)) r), add (0, 0) (mul (per (0, 1)) r)] :=
  single_point_tapered_two_points ⟨(0, 0), 0.5, (0, 1), 0, 0⟩ _
    (Or.inl (by norm_num)) rfl (by norm_num)

/-- Rotation about a pivot preserves the distance to the pivot. -/
theorem rotAround_dist (a c : ℝ × ℝ) (θ : ℝ) :
    dist (rotAround a c θ) c = dist a c := by
  unfold rotAround dist
  congr 1
  have hs := Real.sin_sq_add_cos_sq θ
  linear_combination ((a.1 - c.1) ^ 2 + (a.2 - c.2) ^ 2) * hs

/-- The dot-circle start point (projected from the first point along the
perpendicular of the offset direction, at distance `-r`) lies at distance
exactly `r` from the first point. -/
theorem dot_start_dist (x y r : ℝ) (hr : 0 ≤ r) :
    dist (prj (x, y) (uni (per (sub (x, y) (add (x, y) (1, 1))))) (-r)) (x, y) = r := by
  have h1 : per (sub (x, y) (add (x, y) (1, 1))) = (-1, 1) := by
    simp only [sub, add, per, Prod.mk.injEq]
    constructor <;> ring
  rw [h1]
  have hne : ((-1 : ℝ), (1 : ℝ)) ≠ (0, 0) := by norm_num [Prod.ext_iff]
  have hlen : len ((-1 : ℝ), (1 : ℝ)) = Real.sqrt 2 := by
    unfold len
    norm_num
  have h2 : uni ((-1 : ℝ), (1 : ℝ)) = (-1 / Real.sqrt 2, 1 / Real.sqrt 2) := by
    rw [uni, if_neg hne, hlen]
  rw [h2]
  conv_rhs => rw [← Real.sqrt_sq hr]
  unfold prj add mul dist
  dsimp only
  congr 1
  have hs2 : Real.sqrt 2 ^ 2 = 2 := Real.sq_sqrt (by norm_num)
  rw [show x + -1 / Real.sqrt 2 * -r - x = r / Real.sqrt 2 from by ring,
    show y + 1 / Real.sqrt 2 * -r - y = -(r / Real.sqrt 2) from by ring,
    neg_sq, div_pow, hs2]
  ring

/-- The pressure simulation leaves a pressure of 0.5 unchanged on a segment
of zero length. -/
theorem simPressure_half_zero (s : ℝ) : simPressure s 0.5 0 = 0.5 := by
  unfold simPressure RATE_OF_PRESSURE_CHANGE
  norm_num [min_def]

/-- C4: a single stroke point (pressure 0.5, zero distance and running
length) with zero taper on both ends, identity easing, stroke complete and
positive size yields exactly 13 outline points, all at distance exactly
`getStrokeRadius size thinning 0.5 id` from the stroke point's position:
the dot circle is the entire output. -/
theorem single_point_dot_circle (x y : ℝ) (v : ℝ × ℝ) (o : OutlineOptions)
    (hts : o.taperStart = 0) (hte : o.taperEnd = 0) (hlast : o.last = true)
    (heas : o.easing = fun t => t) (hsize : 0 < o.size) :
    ∃ pts : List (ℝ × ℝ),
      getStrokeOutlinePoints [⟨(x, y), 0.5, v, 0, 0⟩] o = some pts ∧
      pts.length = 13 ∧
      ∀ q ∈ pts, dist q (x, y) = getStrokeRadius o.size o.thinning 0.5 (fun t => t) := by
  have hgsr : getStrokeRadius o.size o.thinning 0.5 (fun t => t) = o.size / 2 := by
    unfold getStrokeRadius
    ring
  have hseed : seedPressure o [⟨(x, y), 0.5, v, 0, 0⟩] 0.5 = 0.5 := by
    unfold seedPressure
    simp only [List.take, List.foldl]
    split
    · rw [simPressure_half_zero]
      norm_num
    · norm_num
  have hpr1 : (if o.thinning ≠ 0 ∧ o.simulatePressure = true then
      simPressure o.size 0.5 0 else 0.5) = 0.5 := by
    split
    · exact simPressure_half_zero _
    · rfl
  have hr1 : (if o.thinning ≠ 0 then
      getStrokeRadius o.size o.thinning 0.5 o.easing else o.size / 2) = o.size / 2 := by
    split
    · rw [heas, hgsr]
    · rfl
  have hrne : o.size / 2 ≠ 0 := ne_of_gt (by linarith)
  have hloop : outlineLoop o 0 ((o.size * o.smoothing) ^ 2) 0
      ⟨0.5, getStrokeRadius o.size o.thinning 0.5 o.easing, none, v, (x, y), (x, y), [], []⟩
      [⟨(x, y), 0.5, v, 0, 0⟩] =
      ⟨0.5, max 0.01 (o.size / 2), some (o.size / 2), v, (x, y), (x, y),
       [sub (x, y) (mul (per v) (max 0.01 (o.size / 2)))],
       [add (x, y) (mul (per v) (max 0.01 (o.size / 2)))]⟩ := by
    rw [outlineLoop]
    simp only [List.isEmpty_nil, eq_self_iff_true, not_true, false_and, if_false,
      hts, hte, sub_zero, lt_self_iff_false, hpr1, hr1, min_self, mul_one]
  simp only [getStrokeOutlinePoints, lastD, List.length_singleton, hseed]
  rw [if_neg (not_le.mpr hsize), if_pos trivial, if_pos (Or.inl ⟨hts, hte⟩), hloop]
  simp only [lt_self_iff_false, if_false]
  rw [if_pos hrne]
  refine ⟨_, rfl, by rw [List.length_map, List.length_range], ?_⟩
  intro q hq
  simp only [List.mem_map, List.mem_range] at hq
  obtain ⟨k, -, rfl⟩ := hq
  rw [rotAround_dist, dot_start_dist x y (o.size / 2) (by linarith), hgsr]

/-- Closed witness for `single_point_dot_circle` at the origin with size
0.01 (below the 0.02 threshold at which the taper floor could matter — the
dot circle uses the pre-floor first radius, so the exact radius size/2 is
still obtained) and thinning 1. -/
theorem single_point_dot_circle_witness :
    ∃ pts : List (ℝ × ℝ),
      getStrokeOutlinePoints [⟨(0, 0), 0.5, (1, 0), 0, 0⟩]
        ⟨0.01, 1, 0.5, true, fun t => t, true, 0, fun t => t, true, 0, fun t => t, true⟩
        = some pts ∧
      pts.length = 13 ∧
      ∀ q ∈ pts, dist q (0, 0) = getStrokeRadius 0.01 1 0.5 (fun t => t) :=
  single_point_dot_circle 0 0 (1, 0) _ rfl rfl rfl rfl (by norm_num)

theorem getStrokePoints_ne_nil (pts : List InputPoint) (o : SPOptions)
    (h : pts ≠ []) : getStrokePoints pts o ≠ [] := by
  cases pts with
  | nil => exact absurd rfl h
  | cons p ps =>
    simp only [getStrokePoints]
    cases hs : synth (p :: ps) with
    | nil => exact absurd hs (synth_ne_nil _ (by simp))
    | cons q rest => simp

/-- With no taper configured, the start cap always succeeds and contains at
least four points (13 for a round cap, 4 for a flat cap). -/
theorem startCapOf_no_taper_length (o : OutlineOptions) (st : OutState)
    (fp : ℝ × ℝ) (n : ℕ) (hts : o.taperStart = 0) (hte : o.taperEnd = 0)
    (hl : st.leftPts ≠ []) (hr : st.rightPts ≠ []) :
    ∃ sc, startCapOf o st fp n = some sc ∧ 4 ≤ sc.length := by
  rw [startCapOf, if_neg (by simp [hts, hte])]
  split
  · cases hrv : st.rightPts.reverse with
    | nil => exact absurd (List.reverse_eq_nil_iff.mp hrv) hr
    | cons r0 rs =>
      refine ⟨_, rfl, ?_⟩
      rw [List.length_map, List.length_range]
      norm_num
  · cases hlv : st.leftPts.reverse with
    | nil => exact absurd (List.reverse_eq_nil_iff.mp hlv) hl
    | cons l0 ls =>
      cases hrv : st.rightPts.reverse with
      | nil => exact absurd (List.reverse_eq_nil_iff.mp hrv) hr
      | cons r0 rs => exact ⟨_, rfl, by norm_num⟩

/-- C2 (amended): the composed pipeline never throws for any input and
configurations; and when the raw input has at least two points, the size is
positive and no taper is configured on either end, the outline has at least
four points.  (The original claim fails when a taper is configured: a
degenerate input can collapse to a single stroke point, whose tapered
incomplete outline has only two points.) -/
theorem pipeline_no_throw_and_length (pts : List InputPoint) (rc : SPOptions)
    (oc : OutlineOptions) :
    (getStrokeOutlinePoints (getStrokePoints pts rc) oc).isSome ∧
    (2 ≤ pts.length → 0 < oc.size → oc.taperStart = 0 → oc.taperEnd = 0 →
      ∃ out, getStrokeOutlinePoints (getStrokePoints pts rc) oc = some out ∧
        4 ≤ out.length) := by
  refine ⟨gsop_isSome _ _, ?_⟩
  intro hlen hsz hts hte
  have hne : getStrokePoints pts rc ≠ [] := by
    refine getStrokePoints_ne_nil _ _ ?_
    intro h
    rw [h] at hlen
    exact absurd hlen (by norm_num)
  cases hL : getStrokePoints pts rc with
  | nil => exact absurd hL hne
  | cons sp1 L' =>
    simp only [getStrokeOutlinePoints]
    rw [if_neg (not_le.mpr hsz)]
    cases L' with
    | nil =>
      rw [if_pos (by simp : ([sp1] : List StrokePoint).length = 1),
        if_pos (Or.inl ⟨hts, hte⟩)]
      refine ⟨_, rfl, ?_⟩
      rw [List.length_map, List.length_range]
      norm_num
    | cons sp2 L'' =>
      rw [if_neg (by simp : ¬ (sp1 :: sp2 :: L'' : List StrokePoint).length = 1)]
      obtain ⟨sc, hsc, hsclen⟩ := startCapOf_no_taper_length oc
        (outlineLoop oc (lastD sp1 (sp1 :: sp2 :: L'')).runningLength
          ((oc.size * oc.smoothing) ^ 2) 0
          ⟨seedPressure oc (sp1 :: sp2 :: L'') sp1.pressure,
           getStrokeRadius oc.size oc.thinning
             (lastD sp1 (sp1 :: sp2 :: L'')).pressure oc.easing,
           none, sp1.vector, sp1.point, sp1.point, [], []⟩
          (sp1 :: sp2 :: L''))
        sp1.point (sp1 :: sp2 :: L'').length hts hte
        (outlineLoop_ne_nil oc _ _ _ 0 _ (by simp)).1
        (outlineLoop_ne_nil oc _ _ _ 0 _ (by simp)).2
      rw [hsc, Option.some_bind]
      refine ⟨_, rfl, ?_⟩
      simp only [List.length_append]
      omega

/-- Closed witness for `pipeline_no_throw_and_length` at a concrete
two-point input with no taper. -/
theorem pipeline_no_throw_and_length_witness :
    (getStrokeOutlinePoints
      (getStrokePoints [((0 : ℝ), (0 : ℝ), (none : Option ℝ)),
        ((20 : ℝ), (0 : ℝ), (none : Option ℝ))] ⟨0.5, 16, false⟩)
      ⟨16, 0.5, 0.5, true, fun t => t, true, 0, fun t => t, true, 0, fun t => t, false⟩).isSome ∧
    ∃ out, getStrokeOutlinePoints
      (getStrokePoints [((0 : ℝ), (0 : ℝ), (none : Option ℝ)),
        ((20 : ℝ), (0 : ℝ), (none : Option ℝ))] ⟨0.5, 16, false⟩)
      ⟨16, 0.5, 0.5, true, fun t => t, true, 0, fun t => t, true, 0, fun t => t, false⟩
      = some out ∧ 4 ≤ out.length :=
  ⟨(pipeline_no_throw_and_length _ _ _).1,
   (pipeline_no_throw_and_length _ _ _).2 (by norm_num) (by norm_num) rfl rfl⟩

/-- C2 (counterexample): the raw input `[[0,0],[0,0]]` has two points, yet
with a start taper of 1 (and `last` false) the pipeline returns an outline
of only two points: every interpolated candidate coincides with the first
point, so the resampler emits a single stroke point, whose tapered
incomplete outline skips both the dot circle and the caps. -/
theorem pipeline_length_cex :
    ∃ out, getStrokeOutlinePoints
        (getStrokePoints [((0 : ℝ), (0 : ℝ), (none : Option ℝ)),
          ((0 : ℝ), (0 : ℝ), (none : Option ℝ))] ⟨0.5, 16, false⟩)
        ⟨16, 0, 0.5, false, fun t => t, true, 1, fun t => t, true, 0, fun t => t, false⟩
      = some out ∧ out.length = 2 ∧ ¬ 4 ≤ out.length := by
  have hsp : getStrokePoints [((0 : ℝ), (0 : ℝ), (none : Option ℝ)),
      ((0 : ℝ), (0 : ℝ), (none : Option ℝ))] ⟨0.5, 16, false⟩
      = [⟨(0, 0), 0.25, (0, 0), 0, 0⟩] := by
    simp only [getStrokePoints, synth, spLoop, List.isEmpty_cons, List.isEmpty_nil,
      pt2, pressOr, lrp, add, sub, mul, emb]
    norm_num
  obtain ⟨r, hr, heq⟩ := gsop_singleton_fallthrough ⟨(0, 0), 0.25, (0, 0), 0, 0⟩
    ⟨16, 0, 0.5, false, fun t => t, true, 1, fun t => t, true, 0, fun t => t, false⟩
    (by norm_num) (by norm_num)
  rw [hsp, heq]
  exact ⟨_, rfl, rfl, by norm_num⟩

theorem pressOr_unspec {q : Option ℝ} (h : unspec q) (d : ℝ) : pressOr q d = d := by
  cases q with
  | none => rfl
  | some x => exact if_neg (not_le.mpr h)

theorem synth_unspec {l : List InputPoint} (h : ∀ p ∈ l, unspec p.2.2) :
    ∀ p ∈ synth l, unspec p.2.2 := by
  cases l with
  | nil => simp [synth]
  | cons a l' =>
    cases l' with
    | nil =>
      intro p hp
      simp only [synth, List.mem_cons, List.not_mem_nil, or_false] at hp
      rcases hp with rfl | rfl
      · exact h _ (by simp)
      · exact h a (by simp)
    | cons b l'' =>
      cases l'' with
      | nil =>
        intro p hp
        simp only [synth, List.mem_cons, List.mem_map] at hp
        rcases hp with rfl | ⟨i, _, hi⟩
        · exact h _ (by simp)
        · rw [← hi]
          trivial
      | cons c l''' => exact fun p hp => h p (by simpa [synth] using hp)

theorem spLoop_pressure_default (t size : ℝ) (c : Bool) :
    ∀ (ps : List InputPoint) (prev : StrokePoint) (rl : ℝ) (fl : Bool),
      (∀ p ∈ ps, unspec p.2.2) →
      ∀ sp ∈ spLoop t size c prev rl fl ps, sp.pressure = 0.5
  | [], _, _, _, _ => by simp [spLoop]
  | p :: rest, prev, rl, fl, h => by
    have hrest : ∀ q ∈ rest, unspec q.2.2 := fun q hq => h q (List.mem_cons_of_mem _ hq)
    simp only [spLoop]
    split
    · split
      · exact spLoop_pressure_default t size c rest prev rl fl hrest
      · split
        · exact spLoop_pressure_default t size c rest prev _ false hrest
        · intro sp hsp
          rcases List.mem_cons.mp hsp with rfl | hmem
          · exact pressOr_unspec (h p (by simp)) _
          · exact spLoop_pressure_default t size c rest _ _ _ hrest sp hmem
    · split
      · exact spLoop_pressure_default t size c rest prev rl fl hrest
      · split
        · exact spLoop_pressure_default t size c rest prev _ false hrest
        · intro sp hsp
          rcases List.mem_cons.mp hsp with rfl | hmem
          · exact pressOr_unspec (h p (by simp)) _
          · exact spLoop_pressure_default t size c rest _ _ _ hrest sp hmem

/-- C7: when every input pressure is absent or negative, the first stroke
point's pressure defaults to 0.25 while every subsequently emitted stroke
point's pressure defaults to 0.5. -/
theorem strokePoints_pressure_defaults (pts : List InputPoint) (o : SPOptions)
    (h : ∀ p ∈ pts, unspec p.2.2) :
    (∀ a ∈ (getStrokePoints pts o).head?, a.pressure = 0.25) ∧
    (∀ sp ∈ (getStrokePoints pts o).tail, sp.pressure = 0.5) := by
  cases pts with
  | nil => simp [getStrokePoints]
  | cons p ps =>
    simp only [getStrokePoints]
    cases hs : synth (p :: ps) with
    | nil => exact absurd hs (synth_ne_nil _ (by simp))
    | cons q rest =>
      dsimp only
      have hsyn := synth_unspec h
      rw [hs] at hsyn
      constructor
      · intro a ha
        simp only [List.head?_cons, Option.mem_def, Option.some.injEq] at ha
        subst ha
        exact pressOr_unspec (hsyn q (by simp)) _
      · intro sp hsp
        simp only [List.tail_cons] at hsp
        exact spLoop_pressure_default _ _ _ rest _ _ _
          (fun r hr => hsyn r (List.mem_cons_of_mem _ hr)) sp hsp

/-- Closed witness for `strokePoints_pressure_defaults` on a concrete
pressure-free input. -/
theorem strokePoints_pressure_defaults_witness :
    (∀ a ∈ (getStrokePoints [((0 : ℝ), (0 : ℝ), (none : Option ℝ)),
        ((10 : ℝ), (3 : ℝ), (none : Option ℝ))] ⟨0.5, 16, false⟩).head?,
      a.pressure = 0.25) ∧
    (∀ sp ∈ (getStrokePoints [((0 : ℝ), (0 : ℝ), (none : Option ℝ)),
        ((10 : ℝ), (3 : ℝ), (none : Option ℝ))] ⟨0.5, 16, false⟩).tail,
      sp.pressure = 0.5) :=
  strokePoints_pressure_defaults _ _ (by
    intro p hp
    rcases List.mem_cons.mp hp with rfl | hp'
    · trivial
    · rcases List.mem_singleton.mp hp' with rfl
      trivial)

theorem lastD_core :
    ∀ {l1 l2 : List StrokePoint}, List.Forall₂ sameCore l1 l2 →
    ∀ a b : StrokePoint, sameCore a b → sameCore (lastD a l1) (lastD b l2)
  | _, _, List.Forall₂.nil, _, _, hab => hab
  | _, _, List.Forall₂.cons hcd htl, _, _, _ => lastD_core htl _ _ hcd

/-- With thinning zero, the outline loop's observable state (everything
except the dead previous-pressure accumulator) does not depend on any
stroke point's pressure. -/
theorem outlineLoop_congr (o : OutlineOptions) (h0 : o.thinning = 0) (tL mD : ℝ) :
    ∀ {ps1 ps2 : List StrokePoint}, List.Forall₂ sameCore ps1 ps2 →
    ∀ (i : ℕ) (st1 st2 : OutState), stEq st1 st2 →
      stEq (outlineLoop o tL mD i st1 ps1) (outlineLoop o tL mD i st2 ps2) := by
  intro ps1 ps2 hf
  induction hf with
  | nil => exact fun i st1 st2 h => h
  | @cons a b l1 l2 hab htl ih =>
    intro i st1 st2 hst
    obtain ⟨hp, hv, hd, hrl⟩ := hab
    obtain ⟨hrad, hfr, hpv, hpl, hpr, hlp, hrp⟩ := hst
    cases htl with
    | nil =>
      rw [outlineLoop.eq_2 o tL mD i st1 a [], outlineLoop.eq_2 o tL mD i st2 b [],
        ← hp, ← hv, ← hd, ← hrl, ← hfr, ← hpv, ← hpl, ← hpr, ← hlp, ← hrp]
      simp only [List.isEmpty_nil, eq_self_iff_true, not_true, false_and,
        if_false, h0, ne_eq, not_true_eq_false]
      exact ⟨rfl, rfl, rfl, rfl, rfl, rfl, rfl⟩
    | @cons b1 b2 ts1 ts2 hb htb =>
      obtain ⟨hbp, hbv, hbd, hbrl⟩ := hb
      rw [outlineLoop.eq_2 o tL mD i st1 a (b1 :: ts1),
        outlineLoop.eq_2 o tL mD i st2 b (b2 :: ts2),
        ← hp, ← hv, ← hd, ← hrl, ← hfr, ← hpv, ← hpl, ← hpr, ← hlp, ← hrp]
      dsimp only
      rw [← hbv]
      simp only [List.isEmpty_cons, Bool.false_eq_true, not_false_eq_true,
        true_and, h0, ne_eq, eq_self_iff_true, not_true, false_and, if_false,
        not_true_eq_false]
      split
      · exact ih (i + 1) st1 st2 ⟨hrad, hfr, hpv, hpl, hpr, hlp, hrp⟩
      · split
        · exact ih (i + 1) _ _ ⟨rfl, rfl, rfl, rfl, rfl, rfl, rfl⟩
        · exact ih (i + 1) _ _ ⟨rfl, rfl, rfl, rfl, rfl, rfl, rfl⟩

theorem startCapOf_congr (o : OutlineOptions) {st1 st2 : OutState}
    (h1 : st1.leftPts = st2.leftPts) (h2 : st1.rightPts = st2.rightPts)
    (fp : ℝ × ℝ) (n : ℕ) : startCapOf o st1 fp n = startCapOf o st2 fp n := by
  unfold startCapOf
  rw [h1, h2]

theorem endCapOf_congr (o : OutlineOptions) {st1 st2 : OutState}
    (h : st1.radius = st2.radius) (lp dir : ℝ × ℝ) (n : ℕ) :
    endCapOf o st1 lp dir n = endCapOf o st2 lp dir n := by
  unfold endCapOf
  rw [h]

/-- C10: when thinning is zero, the outline is independent of every stroke
point's pressure: two stroke point sequences identical except in their
pressure fields produce the same outline. -/
theorem thinning_zero_pressure_independent (o : OutlineOptions)
    (h0 : o.thinning = 0) (ps1 ps2 : List StrokePoint)
    (hrel : List.Forall₂ sameCore ps1 ps2) :
    getStrokeOutlinePoints ps1 o = getStrokeOutlinePoints ps2 o := by
  cases hrel with
  | nil => rfl
  | @cons a b l1 l2 hab htl =>
    have hp := hab.1
    have hv := hab.2.1
    obtain ⟨hLp, hLv, hLd, hLrl⟩ := lastD_core htl a b hab
    have hlen : l1.length = l2.length := htl.length_eq
    have hrad0 : getStrokeRadius o.size o.thinning (lastD a l1).pressure o.easing
        = getStrokeRadius o.size o.thinning (lastD b l2).pressure o.easing := by
      rw [h0]
      unfold getStrokeRadius
      norm_num
    have hst := outlineLoop_congr o h0 (lastD a l1).runningLength
      ((o.size * o.smoothing) ^ 2) (List.Forall₂.cons hab htl) 0
      ⟨seedPressure o (a :: l1) a.pressure,
       getStrokeRadius o.size o.thinning (lastD a l1).pressure o.easing,
       none, a.vector, a.point, a.point, [], []⟩
      ⟨seedPressure o (b :: l2) b.pressure,
       getStrokeRadius o.size o.thinning (lastD b l2).pressure o.easing,
       none, b.vector, b.point, b.point, [], []⟩
      ⟨hrad0, rfl, hv, hp, hp, rfl, rfl⟩
    obtain ⟨hsrad, hsfr, hspv, hspl, hspr, hslp, hsrp⟩ := hst
    simp only [getStrokeOutlinePoints, lastD]
    split
    · rfl
    · simp only [startCapOf_congr o hslp hsrp, endCapOf_congr o hsrad, hsrad,
        hsfr, hslp, hsrp]
      simp only [hp, hv, hLp, hLv, hLrl, List.length_cons, hlen]

/-- Closed witness for `thinning_zero_pressure_independent`: two concrete
single-point sequences differing only in pressure. -/
theorem thinning_zero_pressure_independent_witness :
    getStrokeOutlinePoints [⟨(0, 0), 0.1, (1, 0), 0, 0⟩]
      ⟨16, 0, 0.5, true, fun t => t, true, 0, fun t => t, true, 0, fun t => t, false⟩
    = getStrokeOutlinePoints [⟨(0, 0), 0.9, (1, 0), 0, 0⟩]
      ⟨16, 0, 0.5, true, fun t => t, true, 0, fun t => t, true, 0, fun t => t, false⟩ :=
  thinning_zero_pressure_independent _ rfl _ _
    (List.Forall₂.cons ⟨rfl, rfl, rfl, rfl⟩ List.Forall₂.nil)

end Freehand
